import Mathlib

/-!
Shallow embedding of `src/nps_range.h` (namespace `nps`), specialized to the
integral instantiation: the element type `_Ty` and the step type
`step_type = long long` are both modelled as `Int` (no claim under
consideration depends on fixed-width overflow, which the header itself leaves
unchecked and implementation-defined).  The release-build policy is modelled
(`_DEBUG` undefined): a requested step of `0` is silently coerced to `1`.
C++ `/` and `%` on integers truncate toward zero, so they are modelled by
`Int.tdiv` and `Int.tmod`.
-/

namespace Nps

/-- C++ `abs` from `<cstdlib>`. -/
def cppAbs (x : Int) : Int := if x < 0 then -x else x

/-- `nps::range<_Ty>` data: members `m_start`, `m_end` (of `_Ty`) and
`m_step` (of `step_type`). -/
structure Range where
  m_start : Int
  m_end : Int
  m_step : Int
deriving Repr, DecidableEq

/-- `range::reset(start, end, step)` (release build: zero step coerced to 1),
which every constructor delegates to.  Modelled as the function building the
resulting value: sign of the stored step is forced to agree with the bound
order, then collapsed to 0 when `start == end`. -/
def Range.reset (start end_ step : Int) : Range :=
  let step1 := if step = 0 then 1 else step
  let mstep := if start ≤ end_ then cppAbs step1
               else if step1 > 0 then step1 * (-1)
               else step1
  let mstep2 := if start = end_ then 0 else mstep
  { m_start := start, m_end := end_, m_step := mstep2 }

/-- `range::step(new_step)`: same bounds, renormalized new step. -/
def Range.step (r : Range) (new_step : Int) : Range :=
  Range.reset r.m_start r.m_end new_step

/-- `range::reverse()`. -/
def Range.reverse (r : Range) : Range :=
  if r.m_step < 0 then Range.reset (r.m_end + 1) (r.m_start + 1) (-r.m_step)
  else Range.reset (r.m_end - 1) (r.m_start - 1) (-r.m_step)

/-- `range::scale(factor)`. -/
def Range.scale (r : Range) (factor : Int) : Range :=
  Range.reset (r.m_start * factor) (r.m_end * factor) (r.m_step * factor)

/-- `range::intersection(other)`; `range(new_start, new_start)` uses the
defaulted step argument 1. -/
def Range.intersection (r other : Range) : Range :=
  let new_start := max r.m_start other.m_start
  let new_end := min r.m_end other.m_end
  if new_start ≥ new_end then Range.reset new_start new_start 1
  else Range.reset new_start new_end r.m_step

/-- `range::nth_step(n)` (1-indexed). -/
def Range.nth_step (r : Range) (n : Int) : Int :=
  r.m_start + r.m_step * (n - 1)

/-- `range::slice(start_index, end_index)`; the debug assertion
`start_index <= end_index` is a no-op in release builds. -/
def Range.slice (r : Range) (start_index end_index : Int) : Range :=
  Range.reset (r.nth_step (start_index + 1)) (r.nth_step (end_index + 1)) r.m_step

/-- `range::odd()`: C++ `%` truncates toward zero, hence `Int.tmod`. -/
def Range.odd (r : Range) : Range :=
  Range.reset (if Int.tmod r.m_start 2 = 1 then r.m_start else r.m_start + 1) r.m_end 2

/-- `range::even()`. -/
def Range.even (r : Range) : Range :=
  Range.reset (if Int.tmod r.m_start 2 = 0 then r.m_start else r.m_start + 1) r.m_end 2

/-- `range::size()` for integral `_Ty`:
`abs((m_end - m_start) / abs(m_step))` with C++ truncating division,
after the early return 0 when `m_start == m_end`. -/
def Range.size (r : Range) : Int :=
  if r.m_start = r.m_end then 0
  else cppAbs (Int.tdiv (r.m_end - r.m_start) (cppAbs r.m_step))

/-- `range::contains(value)`; `%` is C++ truncating remainder. -/
def Range.contains (r : Range) (v : Int) : Bool :=
  if r.m_step > 0 then
    decide (v ≥ r.m_start) && decide (v < r.m_end) &&
      decide (Int.tmod (v - r.m_start) r.m_step = 0)
  else
    decide (v ≤ r.m_start) && decide (v > r.m_end) &&
      decide (Int.tmod (r.m_start - v) (-r.m_step) = 0)

/-- C++ `a % b` with its error condition made explicit: `none` when the
divisor is zero (undefined behaviour in the source). -/
def cppModChecked (a b : Int) : Option Int :=
  if b = 0 then none else some (Int.tmod a b)

/-- `range::contains(value)` with the short-circuit evaluation order of `&&`
made explicit, so that reaching a zero-divisor `%` surfaces as `none`. -/
def Range.containsChecked (r : Range) (v : Int) : Option Bool :=
  if r.m_step > 0 then
    if v ≥ r.m_start then
      if v < r.m_end then
        (cppModChecked (v - r.m_start) r.m_step).map (fun m => decide (m = 0))
      else some false
    else some false
  else
    if v ≤ r.m_start then
      if v > r.m_end then
        (cppModChecked (r.m_start - v) (-r.m_step)).map (fun m => decide (m = 0))
      else some false
    else some false

/-- `range::operator==`: memberwise comparison. -/
def Range.eqOp (r right : Range) : Bool :=
  decide (r.m_start = right.m_start) && decide (r.m_end = right.m_end) &&
    decide (r.m_step = right.m_step)

/-- `nps::range_iterator<_Ty, _Sty>` data. -/
structure RangeIterator where
  m_value : Int
  m_step : Int
deriving Repr, DecidableEq

/-- `range_iterator::operator==`: the directional reached-or-passed test. -/
def RangeIterator.eqOp (a right : RangeIterator) : Bool :=
  if a.m_step = right.m_step ∧ a.m_step > 0 then decide (a.m_value ≥ right.m_value)
  else decide (a.m_value ≤ right.m_value)

/-- `range_iterator::operator++`. -/
def RangeIterator.inc (it : RangeIterator) : RangeIterator :=
  { it with m_value := it.m_value + it.m_step }

/-- `range::begin()`. -/
def Range.begin (r : Range) : RangeIterator := ⟨r.m_start, r.m_step⟩

/-- `range::end()`. -/
def Range.endIt (r : Range) : RangeIterator := ⟨r.m_end, r.m_step⟩

/-- The C++ range-for loop `for (it = first; it != last; ++it)` collecting the
dereferenced values, with explicit fuel bounding the number of steps. -/
def iterListFuel : Nat → RangeIterator → RangeIterator → List Int
  | 0, _, _ => []
  | n + 1, it, last =>
      if RangeIterator.eqOp it last then []
      else it.m_value :: iterListFuel n it.inc last

/-- The values a range-for over `r` visits (`range::to_vector` body); the fuel
`|m_end - m_start| + 1` covers every iteration of any range built by `reset`,
whose stored nonzero step has magnitude at least 1. -/
def Range.toList (r : Range) : List Int :=
  iterListFuel ((r.m_end - r.m_start).natAbs + 1) r.begin r.endIt

/-- `nps::circular_range_iterator` data: base `(m_value, m_step)` plus wrap
bounds and the bounded-iteration counter. -/
structure CircularRangeIterator where
  m_value : Int
  m_step : Int
  m_start : Int
  m_end : Int
  m_max : Int
  m_count : Int
deriving Repr, DecidableEq

/-- `circular_range_iterator::operator++`: advance by step, wrap to `m_start`
on reaching or passing `m_end` in the step direction, bump the counter only
when `m_max` is nonzero. -/
def CircularRangeIterator.inc (it : CircularRangeIterator) : CircularRangeIterator :=
  let v := it.m_value + it.m_step
  let v2 := if it.m_step > 0 ∧ v ≥ it.m_end then it.m_start
            else if it.m_step < 0 ∧ v ≤ it.m_end then it.m_start
            else v
  let c := if it.m_max ≠ 0 then it.m_count + 1 else it.m_count
  { it with m_value := v2, m_count := c }

/-- `circular_range_iterator::operator==`. -/
def CircularRangeIterator.eqOp (a right : CircularRangeIterator) : Bool :=
  decide (a.m_max = right.m_max) && decide (a.m_max = a.m_count) &&
    decide (a.m_max ≠ 0)

/-- `nps::circular_range<_Ty>` data. -/
structure CircularRange where
  m_start : Int
  m_end : Int
  m_step : Int
  m_count : Int
deriving Repr, DecidableEq

/-- `circular_range::reset` (release build): same step normalization as
`range::reset` but with no collapse to 0 on equal bounds. -/
def CircularRange.reset (start end_ step count : Int) : CircularRange :=
  let step1 := if step = 0 then 1 else step
  let mstep := if start ≤ end_ then cppAbs step1
               else if step1 > 0 then step1 * (-1)
               else step1
  { m_start := start, m_end := end_, m_step := mstep, m_count := count }

/-- `circular_range::begin()`: `iterator(m_start, m_end, m_step, m_count)`. -/
def CircularRange.begin (c : CircularRange) : CircularRangeIterator :=
  ⟨c.m_start, c.m_step, c.m_start, c.m_end, c.m_count, 0⟩

/-- `circular_range::end()`: `iterator(m_end, m_end, m_step, m_count)`. -/
def CircularRange.endIt (c : CircularRange) : CircularRangeIterator :=
  ⟨c.m_end, c.m_step, c.m_end, c.m_end, c.m_count, 0⟩

/-- `range::circular(count)`. -/
def Range.circular (r : Range) (count : Int) : CircularRange :=
  CircularRange.reset r.m_start r.m_end r.m_step count

/-- Range-for over circular iterators with explicit fuel (the source itself
can loop forever here, so the fuel is a genuine observation bound). -/
def circListFuel : Nat → CircularRangeIterator → CircularRangeIterator → List Int
  | 0, _, _ => []
  | n + 1, it, last =>
      if CircularRangeIterator.eqOp it last then []
      else it.m_value :: circListFuel n it.inc last

/-- The invariant claimed of every `range` value: the stored step is zero
only when `m_start == m_end`, and otherwise its sign agrees with the
direction of `m_end - m_start`. -/
def rangeInvariant (r : Range) : Bool :=
  if r.m_start < r.m_end then decide (0 < r.m_step)
  else if r.m_end < r.m_start then decide (r.m_step < 0)
  else true

/-! Helper lemmas about `Range.reset`. -/

theorem cppAbs_pos (x : Int) (h : x ≠ 0) : 0 < cppAbs x := by
  unfold cppAbs; split_ifs <;> omega

theorem reset_m_start (a b s : Int) : (Range.reset a b s).m_start = a := rfl

theorem reset_m_end (a b s : Int) : (Range.reset a b s).m_end = b := rfl

theorem Range.eqOp_iff (r r' : Range) : Range.eqOp r r' = true ↔ r = r' := by
  cases r; cases r'
  simp [Range.eqOp, Range.mk.injEq, and_assoc]

theorem reset_eq_of_lt (a b s : Int) (h : a < b) :
    Range.reset a b s = ⟨a, b, cppAbs (if s = 0 then 1 else s)⟩ := by
  simp only [Range.reset, Range.mk.injEq, true_and]
  rw [if_neg (by omega), if_pos (by omega)]

theorem reset_eq_of_lt_pos (a b t : Int) (hab : a < b) (ht : 0 < t) :
    Range.reset a b t = ⟨a, b, t⟩ := by
  rw [reset_eq_of_lt a b t hab, Range.mk.injEq]
  refine ⟨rfl, rfl, ?_⟩
  rw [if_neg (by omega)]
  unfold cppAbs
  rw [if_neg (by omega)]

theorem reset_eq_of_gt (a b s : Int) (h : b < a) :
    Range.reset a b s = ⟨a, b,
      if (if s = 0 then 1 else s) > 0 then (if s = 0 then 1 else s) * (-1)
      else (if s = 0 then 1 else s)⟩ := by
  simp only [Range.reset, Range.mk.injEq, true_and]
  rw [if_neg (by omega), if_neg (by omega)]

theorem reset_eq_of_gt_neg (a b t : Int) (hab : b < a) (ht : t < 0) :
    Range.reset a b t = ⟨a, b, t⟩ := by
  rw [reset_eq_of_gt a b t hab, Range.mk.injEq]
  refine ⟨rfl, rfl, ?_⟩
  rw [if_neg (by omega), if_neg (by omega)]

theorem reset_step_zero (a s : Int) : (Range.reset a a s).m_step = 0 := by
  simp [Range.reset]

theorem reset_step_pos (a b s : Int) (h : a < b) : 0 < (Range.reset a b s).m_step := by
  rw [reset_eq_of_lt a b s h]
  exact cppAbs_pos _ (by split_ifs <;> omega)

theorem reset_step_neg (a b s : Int) (h : b < a) : (Range.reset a b s).m_step < 0 := by
  rw [reset_eq_of_gt a b s h]
  show (if (if s = 0 then 1 else s) > 0 then (if s = 0 then 1 else s) * (-1)
        else (if s = 0 then 1 else s)) < 0
  split_ifs <;> omega

theorem rangeInvariant_reset (a b s : Int) :
    rangeInvariant (Range.reset a b s) = true := by
  unfold rangeInvariant
  rcases lt_trichotomy a b with h | h | h
  · rw [if_pos]
    · simpa using reset_step_pos a b s h
    · simpa [Range.reset] using h
  · subst h
    rw [if_neg (by simp [Range.reset]), if_neg (by simp [Range.reset])]
  · rw [if_neg (by simpa [Range.reset] using not_lt.mpr h.le), if_pos (by simpa [Range.reset] using h)]
    simpa using reset_step_neg a b s h

/-- Claim C1: the header documents half-open semantics, and iteration over
`Range(0, 5, 2)` indeed visits the 3 values 0, 2, 4 — but `range::size()`
computes the C++ truncating quotient `abs((end - start) / abs(step))`, which
returns 2, not the claimed `ceil((b - a) / step) = 3`.  The code therefore
disagrees with its own iteration semantics at this input. -/
theorem c1_size_truncates_not_ceil :
    (Range.reset 0 5 2).size = 2 ∧
    (Range.reset 0 5 2).toList = [0, 2, 4] ∧
    ((Range.reset 0 5 2).toList.length : Int) = 3 ∧
    (Range.reset 0 1 2).size = 0 ∧
    (Range.reset 0 1 2).toList.length = 1 ∧
    (Range.reset 0 6 2).size = 3 := by decide

/-- Claim C2: `Range(0, 5, 1)` iterated via `begin()`/`end()` yields exactly
`[0, 1, 2, 3, 4]`, `Range(5, 0, 1)` yields `[5, 4, 3, 2, 1]`, and the
iterator equality test is the directional reached-or-passed predicate, which
reports termination for an iterator strictly past the end sentinel (in either
direction) even though the values are not equal. -/
theorem c2_iteration_order_and_termination :
    (Range.reset 0 5 1).toList = [0, 1, 2, 3, 4] ∧
    (Range.reset 5 0 1).toList = [5, 4, 3, 2, 1] ∧
    RangeIterator.eqOp ⟨6, 1⟩ ⟨5, 1⟩ = true ∧
    RangeIterator.eqOp ⟨4, 1⟩ ⟨5, 1⟩ = false ∧
    RangeIterator.eqOp ⟨-1, -1⟩ ⟨0, -1⟩ = true := by decide

/-- Claim C9: `range::odd()` tests parity with the C++ truncating remainder
`m_start % 2 == 1`, which is `-1` (not `1`) for negative odd starts.  On
`Range(-3, 5, 1)`, whose start already has odd parity, `odd()` therefore
moves the start to `-2` — an even number — instead of keeping `-3`, while
`even()` and the nonnegative cases behave as the claim states. -/
theorem c9_odd_negative_start_bug :
    ((Range.reset (-3) 5 1).odd).m_start = -2 ∧
    Int.tmod ((Range.reset (-3) 5 1).m_start) 2 ≠ 0 ∧
    Int.tmod (((Range.reset (-3) 5 1).odd).m_start) 2 = 0 ∧
    ((Range.reset (-3) 5 1).odd).m_step = 2 ∧
    ((Range.reset (-4) 6 1).even).m_start = -4 ∧
    ((Range.reset (-3) 6 1).even).m_start = -3 + 1 ∧
    ((Range.reset 3 9 1).odd).m_start = 3 ∧
    ((Range.reset 4 9 1).odd).m_start = 4 + 1 := by decide

/-- Claim C3: for every range whose stored step is nonzero (i.e. whose bounds
differ — a requested zero step is coerced, and equal bounds collapse the step),
`reverse()` applied twice returns a range that `operator==` reports equal to
the original. -/
theorem c3_reverse_reverse_id (a b s : Int) (h : (Range.reset a b s).m_step ≠ 0) :
    Range.eqOp ((Range.reset a b s).reverse.reverse) (Range.reset a b s) = true := by
  rw [Range.eqOp_iff]
  have hab : a ≠ b := by
    intro he
    subst he
    exact h (reset_step_zero a s)
  rcases lt_or_gt_of_ne hab with hlt | hgt
  · have hS : 0 < (Range.reset a b s).m_step := reset_step_pos a b s hlt
    set S := (Range.reset a b s).m_step with hSdef
    have hE : Range.reset a b s = ⟨a, b, S⟩ := rfl
    rw [hE]
    have h1 : Range.reverse ⟨a, b, S⟩ = Range.reset (b - 1) (a - 1) (-S) := by
      unfold Range.reverse
      rw [if_neg (by simpa using by omega : ¬ (Range.mk a b S).m_step < 0)]
    rw [h1, reset_eq_of_gt_neg (b - 1) (a - 1) (-S) (by omega) (by omega)]
    have h2 : Range.reverse ⟨b - 1, a - 1, -S⟩ =
        Range.reset (a - 1 + 1) (b - 1 + 1) (-(-S)) := by
      unfold Range.reverse
      rw [if_pos (by simpa using by omega : (Range.mk (b - 1) (a - 1) (-S)).m_step < 0)]
    rw [h2]
    have h3 : a - 1 + 1 = a := by omega
    have h4 : b - 1 + 1 = b := by omega
    have h5 : -(-S) = S := by omega
    rw [h3, h4, h5, reset_eq_of_lt_pos a b S hlt hS]
  · have hS : (Range.reset a b s).m_step < 0 := reset_step_neg a b s hgt
    set S := (Range.reset a b s).m_step with hSdef
    have hE : Range.reset a b s = ⟨a, b, S⟩ := rfl
    rw [hE]
    have h1 : Range.reverse ⟨a, b, S⟩ = Range.reset (b + 1) (a + 1) (-S) := by
      unfold Range.reverse
      rw [if_pos (by simpa using by omega : (Range.mk a b S).m_step < 0)]
    rw [h1, reset_eq_of_lt_pos (b + 1) (a + 1) (-S) (by omega) (by omega)]
    have h2 : Range.reverse ⟨b + 1, a + 1, -S⟩ =
        Range.reset (a + 1 - 1) (b + 1 - 1) (-(-S)) := by
      unfold Range.reverse
      rw [if_neg (by simpa using by omega : ¬ (Range.mk (b + 1) (a + 1) (-S)).m_step < 0)]
    rw [h2]
    have h3 : a + 1 - 1 = a := by omega
    have h4 : b + 1 - 1 = b := by omega
    have h5 : -(-S) = S := by omega
    rw [h3, h4, h5, reset_eq_of_gt_neg a b S hgt hS]

/-- Witness for C3 at `Range(0, 5, 1)`, whose stored step 1 is nonzero. -/
theorem c3_reverse_reverse_id_witness :
    (Range.reset 0 5 1).m_step ≠ 0 ∧
    Range.eqOp ((Range.reset 0 5 1).reverse.reverse) (Range.reset 0 5 1) = true :=
  ⟨by decide, c3_reverse_reverse_id 0 5 1 (by decide)⟩

/-- Claim C5: the invariant — stored step zero only on equal bounds, sign of
the stored step agreeing with the direction of `m_end - m_start` otherwise —
holds for every range built by `reset` (hence by every constructor) and for
the result of every transformation returning a new range (`step`, `reverse`,
`scale`, `slice`, `odd`, `even`, `intersection`), whatever range values the
transformations are applied to. -/
theorem c5_invariant_established_and_preserved (a b s f si ei : Int) (r other : Range) :
    rangeInvariant (Range.reset a b s) = true ∧
    rangeInvariant (r.step s) = true ∧
    rangeInvariant r.reverse = true ∧
    rangeInvariant (r.scale f) = true ∧
    rangeInvariant (r.slice si ei) = true ∧
    rangeInvariant r.odd = true ∧
    rangeInvariant r.even = true ∧
    rangeInvariant (r.intersection other) = true := by
  refine ⟨rangeInvariant_reset a b s, rangeInvariant_reset _ _ _, ?_,
    rangeInvariant_reset _ _ _, rangeInvariant_reset _ _ _,
    rangeInvariant_reset _ _ _, rangeInvariant_reset _ _ _, ?_⟩
  · unfold Range.reverse
    split_ifs <;> exact rangeInvariant_reset _ _ _
  · simp only [Range.intersection]
    split_ifs <;> exact rangeInvariant_reset _ _ _

/-- Claim C4: under the precondition `start_index <= end_index`, `slice`
returns the sub-range built from the `(start_index + 1)`-th and
`(end_index + 1)`-th stepped values via `nth_step` — so its start is
`m_start + m_step * start_index` and its end is `m_start + m_step * end_index`
— and `Range(2, 8, 3).slice(0, 1)` is the sub-range from 2 to 5 covering the
first two stepped values. -/
theorem c4_slice_via_nth_step (r : Range) (si ei : Int) (h : si ≤ ei) :
    r.slice si ei = Range.reset (r.nth_step (si + 1)) (r.nth_step (ei + 1)) r.m_step ∧
    (r.slice si ei).m_start = r.m_start + r.m_step * si ∧
    (r.slice si ei).m_end = r.m_start + r.m_step * ei ∧
    (Range.reset 2 8 3).slice 0 1 = Range.reset 2 5 3 ∧
    ((Range.reset 2 8 3).slice 0 1).m_start = 2 ∧
    ((Range.reset 2 8 3).slice 0 1).m_end = 5 := by
  refine ⟨rfl, ?_, ?_, by decide, by decide, by decide⟩
  · show r.nth_step (si + 1) = r.m_start + r.m_step * si
    unfold Range.nth_step
    ring_nf
  · show r.nth_step (ei + 1) = r.m_start + r.m_step * ei
    unfold Range.nth_step
    ring_nf

/-- Witness for C4 at `Range(2, 8, 3).slice(0, 1)`. -/
theorem c4_slice_via_nth_step_witness :
    (0 : Int) ≤ 1 ∧ ((Range.reset 2 8 3).slice 0 1).m_start = 2 :=
  ⟨by decide, (c4_slice_via_nth_step (Range.reset 2 8 3) 0 1 (by decide)).2.2.2.2.1⟩

/-- Claim C6: `contains` is direction-aware membership. For a positive stored
step it holds exactly on `m_start <= v < m_end` with `(v - m_start)` divisible
by the step (stated with the mathematical modulus, which agrees with the C++
`%` on the guarded operands), for a negative stored step exactly on
`m_end < v <= m_start` with `(m_start - v)` divisible by `-m_step`; and on
`Range(0, 10, 2)` the values 4, 5, 10 test as true, false, false. -/
theorem c6_contains_direction_aware (r : Range) (v : Int) :
    (0 < r.m_step →
      (r.contains v = true ↔
        (r.m_start ≤ v ∧ v < r.m_end ∧ (v - r.m_start) % r.m_step = 0))) ∧
    (r.m_step < 0 →
      (r.contains v = true ↔
        (r.m_end < v ∧ v ≤ r.m_start ∧ (r.m_start - v) % (-r.m_step) = 0))) ∧
    ((Range.reset 0 10 2).contains 4 = true ∧
     (Range.reset 0 10 2).contains 5 = false ∧
     (Range.reset 0 10 2).contains 10 = false) := by
  refine ⟨?_, ?_, by decide, by decide, by decide⟩
  · intro hstep
    unfold Range.contains
    rw [if_pos (by omega)]
    simp only [Bool.and_eq_true, decide_eq_true_eq, ge_iff_le]
    constructor
    · rintro ⟨⟨h1, h2⟩, h3⟩
      refine ⟨h1, h2, ?_⟩
      rw [← Int.tmod_eq_emod (by omega) (by omega)]
      exact h3
    · rintro ⟨h1, h2, h3⟩
      refine ⟨⟨h1, h2⟩, ?_⟩
      rw [Int.tmod_eq_emod (by omega) (by omega)]
      exact h3
  · intro hstep
    unfold Range.contains
    rw [if_neg (by omega)]
    simp only [Bool.and_eq_true, decide_eq_true_eq, gt_iff_lt]
    constructor
    · rintro ⟨⟨h1, h2⟩, h3⟩
      refine ⟨h2, h1, ?_⟩
      rw [← Int.tmod_eq_emod (by omega) (by omega)]
      exact h3
    · rintro ⟨h1, h2, h3⟩
      refine ⟨⟨h2, h1⟩, ?_⟩
      rw [Int.tmod_eq_emod (by omega) (by omega)]
      exact h3

/-- Witness for C6 at `Range(0, 10, 2)` and the member 4. -/
theorem c6_contains_direction_aware_witness :
    (Range.reset 0 10 2).contains 4 = true :=
  (c6_contains_direction_aware (Range.reset 0 10 2) 4).2.2.1

/-- Claim C7: `intersection` of two constructed ranges takes the larger start
and the smaller end; when that start has reached or passed that end it
returns the canonical empty range on the new start (step collapsed to 0),
otherwise it keeps the bounds and the step stored in `self`; and
`Range(0, 4).intersection(Range(2, 6))` iterates exactly the values 2, 3. -/
theorem c7_intersection_bounds (a b s c d t : Int) :
    (max a c ≥ min b d →
      (Range.reset a b s).intersection (Range.reset c d t) =
        Range.reset (max a c) (max a c) 1) ∧
    (max a c < min b d →
      ((Range.reset a b s).intersection (Range.reset c d t)).m_start = max a c ∧
      ((Range.reset a b s).intersection (Range.reset c d t)).m_end = min b d ∧
      ((Range.reset a b s).intersection (Range.reset c d t)).m_step =
        (Range.reset a b s).m_step) ∧
    ((Range.reset 0 4 1).intersection (Range.reset 2 6 1)).toList = [2, 3] := by
  refine ⟨?_, ?_, by decide⟩
  · intro hge
    simp only [Range.intersection, reset_m_start, reset_m_end]
    rw [if_pos hge]
  · intro hlt
    have hab : a < b := by
      have h1 : a ≤ max a c := le_max_left a c
      have h2 : min b d ≤ b := min_le_left b d
      omega
    have hpos : 0 < (Range.reset a b s).m_step := reset_step_pos a b s hab
    have hres : (Range.reset a b s).intersection (Range.reset c d t) =
        Range.reset (max a c) (min b d) (Range.reset a b s).m_step := by
      simp only [Range.intersection, reset_m_start, reset_m_end]
      rw [if_neg (by omega)]
    rw [hres, reset_eq_of_lt_pos (max a c) (min b d) _ hlt hpos]
    exact ⟨rfl, rfl, rfl⟩

/-- Witness for C7 at `Range(0, 4)` and `Range(2, 6)`. -/
theorem c7_intersection_bounds_witness :
    max (0 : Int) 2 < min 4 6 ∧
    ((Range.reset 0 4 1).intersection (Range.reset 2 6 1)).m_start = max 0 2 :=
  ⟨by decide, ((c7_intersection_bounds 0 4 1 2 6 1).2.1 (by decide)).1⟩

/-- Claim C8: the circular range with `max_count = 3` over `Range(0, 3)`,
iterated against the identically-bounded end iterator, yields exactly the 3
values 0, 1, 2 before the iterators first compare equal (fuel 16 is ample),
while any circular iterator whose `m_max` is 0 never compares equal to any
circular iterator, so unbounded circulation never self-terminates. -/
theorem c8_circular_bounded_and_unbounded :
    circListFuel 16 ((Range.reset 0 3 1).circular 3).begin
        ((Range.reset 0 3 1).circular 3).endIt = [0, 1, 2] ∧
    (circListFuel 16 ((Range.reset 0 3 1).circular 3).begin
        ((Range.reset 0 3 1).circular 3).endIt).length = 3 ∧
    ∀ itA itB : CircularRangeIterator,
      itA.m_max = 0 → CircularRangeIterator.eqOp itA itB = false := by
  refine ⟨by decide, by decide, ?_⟩
  intro itA itB h0
  unfold CircularRangeIterator.eqOp
  simp [h0]

/-- Witness for C8: a concrete `m_max = 0` iterator pair never tests equal. -/
theorem c8_circular_bounded_and_unbounded_witness :
    (⟨5, 1, 0, 3, 0, 7⟩ : CircularRangeIterator).m_max = 0 ∧
    CircularRangeIterator.eqOp ⟨5, 1, 0, 3, 0, 7⟩ ⟨3, 1, 3, 3, 0, 0⟩ = false :=
  ⟨rfl, c8_circular_bounded_and_unbounded.2.2 _ _ rfl⟩

/-- The C5 invariant pins down the sign facts `contains` needs. -/
theorem rangeInvariant_spec (r : Range) (h : rangeInvariant r = true) :
    (r.m_start < r.m_end → 0 < r.m_step) ∧ (r.m_end < r.m_start → r.m_step < 0) := by
  unfold rangeInvariant at h
  split_ifs at h with h1 h2 <;>
    simp only [decide_eq_true_eq] at h <;> constructor <;> intros <;> omega

/-- Claim C10: on every range satisfying the step/direction invariant (in
particular every range produced by `reset`, including the empty range with
equal bounds and step collapsed to 0), evaluating `contains` never reaches a
modulo with zero divisor: the short-circuited guards rule the division out. -/
theorem c10_contains_never_divides_by_zero (r : Range) (v : Int)
    (h : rangeInvariant r = true) :
    (r.containsChecked v).isSome = true := by
  have hinv := rangeInvariant_spec r h
  unfold Range.containsChecked cppModChecked
  split_ifs with h1 h2 h3 h4 <;> try simp
  · omega
  · rename_i h5 h6
    have hz : r.m_step = 0 := by omega
    have : ¬ (r.m_start < r.m_end) := fun hc => by have := hinv.1 hc; omega
    have : ¬ (r.m_end < r.m_start) := fun hc => by have := hinv.2 hc; omega
    omega

/-- Witness for C10 at the empty range `Range(2, 2, 5)` (stored step 0). -/
theorem c10_contains_never_divides_by_zero_witness :
    ((Range.reset 2 2 5).containsChecked 2).isSome = true :=
  c10_contains_never_divides_by_zero (Range.reset 2 2 5) 2 (by decide)

end Nps
